import Mathlib

/-!
A verification development for the micro-alloc family of memory allocators
(linear, stack, pool and dynamic engines over a caller-supplied byte region).

The engines are embedded shallowly:
* machine words (the C type `uptr`, 64 bits here) are natural numbers and
  every arithmetic step that can wrap goes through an explicit `% 2^64`
  (`addW`, `subW`); the C type `uint` (32 bits) is modelled by `to32`;
* the byte region is a word-granular store `Mem` mapping byte addresses to
  64-bit words (an association list, most recent write first);
* each engine is a structure holding exactly the C data members, and each
  operation is a function transliterated from the corresponding C member
  function; loops carry an explicit fuel argument and return `Option`.
-/

set_option maxRecDepth 8000

namespace MicroAlloc

/-- 2^64, one past the largest value of the pointer-sized unsigned type. -/
def W64 : Nat := 2 ^ 64

/-- 2^32, one past the largest value of the C `uint` type. -/
def U32 : Nat := 2 ^ 32

/-- Wrapping 64-bit addition (C unsigned addition on `uptr`). -/
def addW (a b : Nat) : Nat := (a + b) % W64

/-- Wrapping 64-bit subtraction (C unsigned subtraction on `uptr`),
    for operands below 2^64. -/
def subW (a b : Nat) : Nat := (a + (W64 - b % W64)) % W64

/-- Truncation to the C `uint` type. -/
def to32 (a : Nat) : Nat := a % U32

/-- memory_resource::align_up: `(address + (alignment-1)) & ~(alignment-1)`.
    The complement is taken inside a 64-bit word. -/
def align_up (address alignment : Nat) : Nat :=
  let align_m_1 := subW alignment 1
  let b := W64 - 1 - align_m_1
  let a := addW address align_m_1
  a &&& b

/-- memory_resource::align_down: `address & ~(alignment-1)`. -/
def align_down (address alignment : Nat) : Nat :=
  address &&& (W64 - 1 - subW alignment 1)

/-- memory_resource::is_pow_2: `v && !(v & (v - 1))`. -/
def is_pow_2 (v : Nat) : Bool := v ≠ 0 && (v &&& (v - 1)) = 0

/-- memory_resource::max. -/
def umax (a b : Nat) : Nat := if a > b then a else b

/-- The word-granular store: pairs (byte address, 64-bit word), latest first. -/
def Mem : Type := List (Nat × Nat)

instance : DecidableEq Mem := by
  unfold Mem
  infer_instance

/-- Read the word stored at byte address a (unwritten locations read as 0). -/
def mread (m : Mem) (a : Nat) : Nat :=
  match m with
  | [] => 0
  | (b, v) :: t => if b = a then v else mread t a

/-- Write word v at byte address a. -/
def mwrite (m : Mem) (a v : Nat) : Mem := (a, v) :: m

/-! ## The linear engine (linear_memory.h) -/

/-- The data members of `micro_alloc::linear_memory`.
    `current_ptr` holds the integer value of `_current_ptr` (0 = nullptr). -/
structure linear_memory where
  ptr : Nat
  current_ptr : Nat
  size : Nat
  alignment : Nat
  is_valid : Bool
deriving DecidableEq

namespace linear_memory

/-- linear_memory constructor: validity is `is_alignment_pow_2()`; on success
    `reset()` puts the cursor at the aligned base, otherwise the cursor keeps
    its `nullptr` initializer.  `_size` is a `uint` member. -/
def create (ptr size_bytes alignment : Nat) : linear_memory :=
  let valid := is_pow_2 alignment
  { ptr := ptr
    current_ptr := if valid then align_up ptr alignment else 0
    size := to32 size_bytes
    alignment := alignment
    is_valid := valid }

def start_aligned_address (s : linear_memory) : Nat := align_up s.ptr s.alignment

def end_aligned_address (s : linear_memory) : Nat :=
  align_down (addW s.ptr s.size) s.alignment

def available_size (s : linear_memory) : Nat :=
  subW (end_aligned_address s) (align_up s.current_ptr s.alignment)

/-- linear_memory::malloc. The returned value is the address handed to the
    caller, with 0 standing for nullptr. -/
def malloc (s : linear_memory) (size_bytes : Nat) : Nat × linear_memory :=
  let sz := align_up size_bytes s.alignment
  let available_space := available_size s
  if sz = 0 then (0, s)
  else if ¬ (sz ≤ available_space) then (0, s)
  else (s.current_ptr, { s with current_ptr := addW s.current_ptr sz })

/-- linear_memory::free always fails and does nothing. -/
def free (s : linear_memory) (_pointer : Nat) : Bool × linear_memory := (false, s)

/-- linear_memory::reset. -/
def reset (s : linear_memory) : linear_memory :=
  { s with current_ptr := align_up s.ptr s.alignment }

end linear_memory

/-! ## The stack engine (stack_memory.h) -/

/-- The data members of `micro_alloc::stack_memory`.  `mem` holds the words
    the engine wrote into the region (the block footers). -/
structure stack_memory where
  mem : Mem
  ptr : Nat
  current_block_end : Nat
  size : Nat
  alignment : Nat
  is_valid : Bool
deriving DecidableEq

namespace stack_memory

/-- `alignment_of_footer() = align_of_uptr() = sizeof(uptr)`. -/
def alignment_of_footer : Nat := 8

/-- stack_memory constructor: checks footer fits the region, pointers are
    expressible (always true here) and the alignment is divisible by
    `sizeof(uintptr_type)`; on success the cursor starts at the aligned base. -/
def create (mem : Mem) (ptr size_bytes alignment : Nat) : stack_memory :=
  let valid1 := alignment_of_footer ≤ to32 size_bytes
  let valid3 := alignment % 8 = 0
  let valid := valid1 ∧ valid3
  { mem := mem
    ptr := ptr
    current_block_end := if valid then align_up ptr alignment else 0
    size := to32 size_bytes
    alignment := alignment
    is_valid := decide valid }

def start_aligned_address (s : stack_memory) : Nat := align_up s.ptr s.alignment

def end_aligned_address (s : stack_memory) : Nat :=
  align_down (addW s.ptr s.size) s.alignment

def available_size (s : stack_memory) : Nat :=
  subW (end_aligned_address s) (align_up s.current_block_end s.alignment)

/-- stack_memory::malloc: append a block `[aligned payload | footer]` after the
    current block end; the footer stores the distance in bytes to the previous
    block end.  Returns the block start (0 = nullptr). -/
def malloc (s : stack_memory) (size_bytes : Nat) : Nat × stack_memory :=
  if size_bytes = 0 then (0, s)
  else
    let prev_block_end := s.current_block_end
    let new_block_start := align_up prev_block_end s.alignment
    let aligned_size_bytes := align_up size_bytes s.alignment
    let start_of_footer :=
      addW new_block_start (align_up aligned_size_bytes alignment_of_footer)
    let new_block_end := addW start_of_footer 8
    let distance_to_prev_block_end := subW new_block_end prev_block_end
    if ¬ (distance_to_prev_block_end ≤ available_size s) then (0, s)
    else
      (new_block_start,
        { s with
          current_block_end := addW s.current_block_end distance_to_prev_block_end
          mem := mwrite s.mem start_of_footer distance_to_prev_block_end })

/-- stack_memory::free: succeeds only on the start address of the top block,
    recomputed from the topmost footer. -/
def free (s : stack_memory) (pointer : Nat) : Bool × stack_memory :=
  let address := pointer
  if s.current_block_end = start_aligned_address s then (false, s)
  else
    let current_footer_start := subW s.current_block_end 8
    let footer := mread s.mem current_footer_start
    let last_block_end := subW s.current_block_end footer
    let current_block_start := align_up last_block_end s.alignment
    if ¬ (address = current_block_start) then (false, s)
    else (true, { s with current_block_end := subW s.current_block_end footer })

end stack_memory

/-! ## The pool engine (pool_memory.h) -/

/-- The data members of `micro_alloc::pool_memory`.  Each free slot stores a
    single `next` pointer at its head, held in `mem`. -/
structure pool_memory where
  mem : Mem
  ptr : Nat
  size : Nat
  block_size : Nat
  blocks_count : Nat
  free_blocks_count : Nat
  free_list_root : Nat
  guard_against_double_free : Bool
  alignment : Nat
  is_valid : Bool
deriving DecidableEq

namespace pool_memory

/-- `minimal_size_of_any_block() = align_up(sizeof(header_t))`. -/
def minimal_size_of_any_block (alignment : Nat) : Nat := align_up 8 alignment

/-- pool_memory::correct_block_size. -/
def correct_block_size (alignment block_size : Nat) : Nat :=
  let b := align_up block_size alignment
  if b < minimal_size_of_any_block alignment then minimal_size_of_any_block alignment
  else b

/-- The slot-threading loop body of pool_memory::reset: repeatedly write the
    next-slot address into the current slot.  Returns the final store and the
    final value of `current`. -/
def link_loop (mem : Mem) (current next block_size : Nat) : Nat → Mem × Nat
  | 0 => (mem, current)
  | k + 1 =>
      link_loop (mwrite mem current next) (addW current block_size)
        (addW next block_size) block_size k

/-- pool_memory::reset: divide the aligned region into equal slots and thread
    them into a singly linked free list. -/
def reset (s : pool_memory) (block_size : Nat) : pool_memory :=
  let bsz := correct_block_size s.alignment block_size
  let a := align_up s.ptr s.alignment
  let b := align_down (addW s.ptr s.size) s.alignment
  let blocks := (subW b a) / bsz
  let st := link_loop s.mem a (addW a bsz) bsz (subW blocks 1)
  { s with
    mem := mwrite st.1 st.2 0
    block_size := bsz
    blocks_count := blocks
    free_blocks_count := blocks
    free_list_root := a }

/-- pool_memory constructor: the effective alignment is
    `max(requested_alignment, sizeof(uintptr_type))`; validity checks the
    corrected block size fits the region and the alignment is a power of two;
    `reset` only runs on success. -/
def create (mem : Mem) (ptr size_bytes block_size requested_alignment : Nat)
    (guard_against_double_free : Bool) : pool_memory :=
  let al := umax requested_alignment 8
  let valid1 := correct_block_size al block_size ≤ size_bytes
  let valid3 := is_pow_2 al
  let valid := valid1 && valid3
  let base : pool_memory :=
    { mem := mem
      ptr := ptr
      size := size_bytes
      block_size := 0
      blocks_count := 0
      free_blocks_count := 0
      free_list_root := 0
      guard_against_double_free := guard_against_double_free
      alignment := al
      is_valid := valid }
  if valid then reset base block_size else base

def start_aligned_address (s : pool_memory) : Nat := align_up s.ptr s.alignment

def end_aligned_address (s : pool_memory) : Nat :=
  align_down (addW s.ptr s.size) s.alignment

def available_size (s : pool_memory) : Nat :=
  (s.free_blocks_count * s.block_size) % W64

/-- pool_memory::malloc ignores the requested size and pops the head slot. -/
def malloc (s : pool_memory) (_size_bytes_dont_matter : Nat) : Nat × pool_memory :=
  if s.free_list_root = 0 then (0, s)
  else
    (s.free_list_root,
      { s with
        free_list_root := mread s.mem s.free_list_root
        free_blocks_count := subW s.free_blocks_count 1 })

/-- The guard walk of pool_memory::free: scan the free list for `address`.
    `none` means the fuel ran out before the scan finished. -/
def guard_walk (mem : Mem) (address : Nat) : Nat → Nat → Option Bool
  | current, 0 => if current = 0 then some false else none
  | current, fuel + 1 =>
      if current = 0 then some false
      else if current = address then some true
      else guard_walk mem address (mread mem current) fuel

/-- pool_memory::free: validate the range and slot alignment, optionally walk
    the free list for a double free, then push the slot onto the head. -/
def free (fuel : Nat) (s : pool_memory) (pointer : Nat) :
    Option (Bool × pool_memory) :=
  let address := pointer
  let min_range := align_up s.ptr s.alignment
  let max_range := align_down (addW s.ptr s.size) s.alignment
  if ¬ (min_range ≤ address ∧ address < max_range) then some (false, s)
  else if ¬ ((subW address min_range) % s.block_size = 0) then some (false, s)
  else
    let checked : Option Bool :=
      if s.guard_against_double_free then guard_walk s.mem address s.free_list_root fuel
      else some false
    match checked with
    | none => none
    | some true => some (false, s)
    | some false =>
        some (true,
          { s with
            mem := mwrite s.mem address s.free_list_root
            free_list_root := address
            free_blocks_count := addW s.free_blocks_count 1 })

end pool_memory

/-! ## The dynamic engine (dynamic_memory.h)

Blocks carry a base header and a footer word `size | allocated_bit`; free
blocks additionally store `prev` (offset 8) and `next` (offset 16) free-list
links after the header.  `sizeof(base_header_t) = sizeof(footer_t) = 8`,
`sizeof(header_t) = 24`. -/

/-- The data members of `micro_alloc::dynamic_memory`. -/
structure dynamic_memory where
  mem : Mem
  free_list_root : Nat
  allocations : Nat
  ptr : Nat
  size : Nat
  alignment : Nat
  is_valid : Bool
deriving DecidableEq

namespace dynamic_memory

/-- base_header_t::size(): `size_and_status & ~uptr(1)`. -/
def word_size (w : Nat) : Nat := w &&& (W64 - 2)

/-- `minimal_size_of_any_block()` (a `uint`):
    `align_up(sizeof(header_t)) + align_up(sizeof(footer_t))`. -/
def minimal_size_of_any_block (al : Nat) : Nat :=
  to32 (addW (align_up 24 al) (align_up 8 al))

/-- `aligned_base_header_and_footer()` (a `uint`):
    `align_up(sizeof(base_header_t)) + align_up(sizeof(footer_t))`. -/
def aligned_base_header_and_footer (al : Nat) : Nat :=
  to32 (addW (align_up 8 al) (align_up 8 al))

/-- `effective_payload_size_of_block` (a `uint`):
    block size minus aligned base header and footer. -/
def effective_payload_size_of_block (mem : Mem) (al block : Nat) : Nat :=
  to32 (subW (word_size (mread mem block)) (aligned_base_header_and_footer al))

/-- `compute_required_block_size_by_payload_size`: header + footer + aligned
    payload, clamped from below by the minimal block size. -/
def compute_required_block_size_by_payload_size (al payload_size : Nat) : Nat :=
  let p := to32 (align_up payload_size al)
  let allocated_block := addW (addW (align_up 8 al) (align_up 8 al)) p
  let minimal_free_block_size := minimal_size_of_any_block al
  if allocated_block < minimal_free_block_size then minimal_free_block_size
  else allocated_block

/-- `create_free_block(from, to)`: align the bounds, write the header and
    footer words as a free block, null the two links.  Returns the new store
    and the aligned bounds. -/
def create_free_block (mem : Mem) (al a b : Nat) : Mem × Nat × Nat :=
  let f := align_up a al
  let t := align_down b al
  let w := subW t f
  let m1 := mwrite mem f w
  let m2 := mwrite m1 (subW t (align_up 8 al)) w
  let m3 := mwrite m2 (addW f 8) 0
  let m4 := mwrite m3 (addW f 16) 0
  (m4, f, t)

/-- `get_block(from)`: read the block bounds back from the header word. -/
def get_block (mem : Mem) (al a : Nat) : Nat × Nat :=
  let f := align_up a al
  let t := addW f (word_size (mread mem f))
  (f, t)

/-- block_t::toggle_allocated(): flip the status bit in the header and in the
    footer word. -/
def toggle_block (mem : Mem) (al f t : Nat) : Mem :=
  let m1 := mwrite mem f ((mread mem f) ^^^ 1)
  let fa := subW t (align_up 8 al)
  mwrite m1 fa ((mread m1 fa) ^^^ 1)

/-- `split_free_block_to_two_by_payload_size`: when the block can hold the
    required allocated block plus a minimal free block and one alignment of
    slack, carve it into a left block of the required size and a right free
    block spliced into the candidate link slot; otherwise keep the block. -/
def split_free_block_to_two_by_payload_size (mem : Mem) (al block payload_size : Nat) :
    Mem × Nat :=
  let p := to32 (align_up payload_size al)
  let required_allocated_block_size := compute_required_block_size_by_payload_size al p
  let required_free_block_size := addW (minimal_size_of_any_block al) al
  let has_space :=
    addW required_allocated_block_size required_free_block_size ≤
      word_size (mread mem block)
  if has_space then
    let old_size := word_size (mread mem block)
    let block_prev := mread mem (addW block 8)
    let block_next := mread mem (addW block 16)
    let e_b1 := addW block required_allocated_block_size
    let c1 := create_free_block mem al block e_b1
    let s_b2 := c1.2.2
    let e_b2 := addW block old_size
    let c2 := create_free_block c1.1 al s_b2 e_b2
    let m3 := mwrite c2.1 (addW c1.2.1 8) block_prev
    let m4 := mwrite m3 (addW c1.2.1 16) c2.2.1
    let m5 := mwrite m4 (addW c2.2.1 8) c1.2.1
    let m6 := mwrite m5 (addW c2.2.1 16) block_next
    (m6, c1.2.1)
  else (mem, block)

/-- The free-list removal of a node, shared by malloc (on the resolved block)
    and free (on coalesced neighbors): write through the node's `prev` and
    `next` links (in that order, the second write reading the possibly
    updated store) and move the root when the node had no predecessor. -/
def unlink (mem : Mem) (root node : Nat) : Mem × Nat :=
  let first := mread mem (addW node 8) = 0
  let last := mread mem (addW node 16) = 0
  let ma :=
    if ¬ first then
      mwrite mem (addW (mread mem (addW node 8)) 16) (mread mem (addW node 16))
    else mem
  let mb :=
    if ¬ last then
      mwrite ma (addW (mread ma (addW node 16)) 8) (mread ma (addW node 8))
    else ma
  let root2 := if first then mread mb (addW node 16) else root
  (mb, root2)

/-- The best-fit scan of dynamic_memory::malloc: walk the free list, keeping
    the first smallest node whose effective payload fits (0 = no node yet).
    `none` means the fuel ran out before the list ended. -/
def find_best (mem : Mem) (al n' : Nat) : Nat → Nat → Nat → Option Nat
  | current, best, 0 => if current = 0 then some best else none
  | current, best, fuel + 1 =>
      if current = 0 then some best
      else
        let fits := n' ≤ effective_payload_size_of_block mem al current
        let is_best :=
          fits ∧ (best = 0 ∨
            word_size (mread mem current) < word_size (mread mem best))
        let best2 := if is_best then current else best
        find_best mem al n' (mread mem (addW current 16)) best2 fuel

/-- The committed part of dynamic_memory::malloc, reached once the best-fit
    scan found a nonzero candidate: optional split, unlink of the resolved
    block, clearing of its links, toggle to allocated, and the returned
    payload address. -/
def malloc_commit (s : dynamic_memory) (best n' : Nat) : Nat × dynamic_memory :=
  let al := s.alignment
  let sp := split_free_block_to_two_by_payload_size s.mem al best (to32 n')
  let m := sp.1
  let resolved := sp.2
  let u := unlink m s.free_list_root resolved
  let m4 := mwrite u.1 (addW resolved 8) 0
  let m5 := mwrite m4 (addW resolved 16) 0
  let gb := get_block m5 al resolved
  let m6 := toggle_block m5 al gb.1 gb.2
  let address := addW resolved (align_up 8 al)
  let allocs := addW s.allocations (word_size (mread m6 resolved))
  (address, { s with mem := m6, free_list_root := u.2, allocations := allocs })

/-- dynamic_memory::malloc: best-fit search, optional split, unlink, toggle
    to allocated, return the payload address (0 = nullptr). -/
def malloc (fuel : Nat) (s : dynamic_memory) (size_bytes : Nat) :
    Option (Nat × dynamic_memory) :=
  let al := s.alignment
  let n' := align_up size_bytes al
  match find_best s.mem al n' s.free_list_root 0 fuel with
  | none => none
  | some best =>
    if best = 0 then some (0, s)
    else some (malloc_commit s best n')

/-- The address-ordered insertion search of dynamic_memory::free: advance
    while the current node address is below the target, remembering the node
    before.  Returns (current, before); `none` means the fuel ran out. -/
def insert_search (mem : Mem) (target : Nat) : Nat → Nat → Nat → Option (Nat × Nat)
  | current, before, 0 =>
      if current = 0 then some (current, before)
      else if ¬ (current < target) then some (current, before)
      else none
  | current, before, fuel + 1 =>
      if current = 0 then some (current, before)
      else if ¬ (current < target) then some (current, before)
      else insert_search mem target (mread mem (addW current 16)) current fuel

/-- The left-coalesce step of dynamic_memory::free (reached when the freed
    block is not the leftmost): read the left neighbor through its footer
    and, when it is free, unlink it.  Returns the store, the root, the new
    leftmost address and the left hint node (`prev` of the removed neighbor,
    read back from the updated store). -/
def coalesce_left (mem : Mem) (al root f : Nat) : Mem × Nat × Nat × Nat :=
  let left_block_footer_address := subW f (align_up 8 al)
  let left_footer := mread mem left_block_footer_address
  let left_block_address := subW f (word_size left_footer)
  let lf := align_up left_block_address al
  let lhw := mread mem lf
  if lhw &&& 1 = 0 then
    let u := unlink mem root lf
    (u.1, u.2, lf, mread u.1 (addW lf 8))
  else (mem, root, f, 0)

/-- The right-coalesce step of dynamic_memory::free (reached when the freed
    block is not the rightmost): read the right neighbor header at the block
    end and, when it is free, unlink it.  Returns the store, the root, the
    new rightmost address and the right hint node (`next` of the removed
    neighbor, read back from the updated store). -/
def coalesce_right (mem : Mem) (al root t : Nat) : Mem × Nat × Nat × Nat :=
  let rf := align_up t al
  let rhw := mread mem rf
  let rt := addW rf (word_size rhw)
  if rhw &&& 1 = 0 then
    let u := unlink mem root rf
    (u.1, u.2, rt, mread u.1 (addW rf 16))
  else (mem, root, t, 0)

/-- Insertion of the merged free block immediately after the left hint node:
    `new.next = hint.next; new.prev = hint; hint.next.prev = new (if any);
    hint.next = new`. -/
def insert_with_left_hint (mem : Mem) (nf hint : Nat) : Mem :=
  let mA := mwrite mem (addW nf 16) (mread mem (addW hint 16))
  let mB := mwrite mA (addW nf 8) hint
  let mC :=
    if ¬ (mread mB (addW hint 16) = 0) then
      mwrite mB (addW (mread mB (addW hint 16)) 8) nf
    else mB
  mwrite mC (addW hint 16) nf

/-- Insertion of the merged free block immediately before the right hint
    node, replacing the root when the hint was the root. -/
def insert_with_right_hint (mem : Mem) (root nf hint : Nat) : Mem × Nat :=
  let mA := mwrite mem (addW nf 16) hint
  let mB := mwrite mA (addW nf 8) (mread mA (addW hint 8))
  let mC :=
    if ¬ (mread mB (addW hint 8) = 0) then
      mwrite mB (addW (mread mB (addW hint 8)) 16) nf
    else mB
  let mD := mwrite mC (addW hint 8) nf
  (mD, if root = hint then nf else root)

/-- Insertion by linear search over the address-ordered free list: append
    after the last node when the search ran off the end, otherwise insert
    before the first node with a larger address (replacing the root when that
    node was first).  `none` means the search fuel ran out. -/
def insert_by_search (fuel : Nat) (mem : Mem) (root nf : Nat) : Option (Mem × Nat) :=
  match insert_search mem nf root root fuel with
  | none => none
  | some (current, before) =>
    if current = 0 then
      let mA := mwrite mem (addW before 16) nf
      let mB := mwrite mA (addW nf 8) before
      some (mwrite mB (addW nf 16) 0, root)
    else
      let mA := mwrite mem (addW nf 8) (mread mem (addW current 8))
      let mB := mwrite mA (addW nf 16) current
      let prev_of_current := mread mB (addW current 8)
      let mC :=
        if ¬ (prev_of_current = 0) then mwrite mB (addW prev_of_current 16) nf
        else mB
      some (mwrite mC (addW current 8) nf,
        if prev_of_current = 0 then nf else root)

/-- The committed part of dynamic_memory::free, reached after the three
    checks pass, on the block `[f, t)`: toggle it free, adjust the allocation
    total, coalesce with its free neighbors, write the merged free block and
    insert it into the address-ordered free list (by hint in O(1) after a
    coalesce, else by search).  Every C path through this code returns true;
    `none` means the search fuel ran out. -/
def free_commit (fuel : Nat) (s : dynamic_memory) (f t : Nat) :
    Option dynamic_memory :=
  let al := s.alignment
  let m1 := toggle_block s.mem al f t
  let allocs := subW s.allocations (word_size (mread m1 f))
  let is_first_block := align_up s.ptr al = f
  let is_last_block := align_down (addW s.ptr s.size) al = t
  let L : Mem × Nat × Nat × Nat :=
    if ¬ is_first_block then coalesce_left m1 al s.free_list_root f
    else (m1, s.free_list_root, f, 0)
  let R : Mem × Nat × Nat × Nat :=
    if ¬ is_last_block then coalesce_right L.1 al L.2.1 t
    else (L.1, L.2.1, t, 0)
  let rootR := R.2.1
  let left_hint_node := L.2.2.2
  let right_hint_node := R.2.2.2
  let cb := create_free_block R.1 al L.2.2.1 R.2.2.1
  let mN := cb.1
  let nf := cb.2.1
  if rootR = 0 then
    some { s with mem := mN, free_list_root := nf, allocations := allocs }
  else if ¬ (left_hint_node = 0) then
    some
      { s with
        mem := insert_with_left_hint mN nf left_hint_node
        free_list_root := rootR
        allocations := allocs }
  else if ¬ (right_hint_node = 0) then
    let iw := insert_with_right_hint mN rootR nf right_hint_node
    some { s with mem := iw.1, free_list_root := iw.2, allocations := allocs }
  else
    match insert_by_search fuel mN rootR nf with
    | none => none
    | some mr =>
      some { s with mem := mr.1, free_list_root := mr.2, allocations := allocs }

/-- dynamic_memory::free: validate alignment, the header/footer sanity tag and
    the allocation status, then run the committed part (which always reports
    success). -/
def free (fuel : Nat) (s : dynamic_memory) (pointer : Nat) :
    Option (Bool × dynamic_memory) :=
  let al := s.alignment
  let address := pointer
  if ¬ (align_down address al = address) then some (false, s)
  else
    let header_address := subW address (align_up 8 al)
    let f := align_up header_address al
    let hword := mread s.mem f
    let bsz := word_size hword
    let t := addW f bsz
    let fa := subW t (align_up 8 al)
    if ¬ (mread s.mem fa = hword) then some (false, s)
    else if hword &&& 1 = 0 then some (false, s)
    else (free_commit fuel s f t).map (fun s2 => (true, s2))

def start_aligned_address (s : dynamic_memory) : Nat := align_up s.ptr s.alignment

def end_aligned_address (s : dynamic_memory) : Nat :=
  align_down (addW s.ptr s.size) s.alignment

def available_size (s : dynamic_memory) : Nat :=
  subW (subW (end_aligned_address s) (start_aligned_address s)) s.allocations

/-- dynamic_memory constructor: the whole region becomes one free block; the
    engine is valid when that block is at least the minimal block size and the
    effective alignment `max(alignment, sizeof(uintptr_type))` is a power of
    two.  `size_bytes` is an `unsigned int` parameter. -/
def create (mem : Mem) (ptr size_bytes alignment : Nat) : dynamic_memory :=
  let al := umax alignment 8
  let c := create_free_block mem al ptr (addW ptr (to32 size_bytes))
  let bsz := word_size (mread c.1 c.2.1)
  let valid1 := minimal_size_of_any_block al ≤ bsz
  let valid3 := is_pow_2 al
  let valid := valid1 && valid3
  { mem := c.1
    free_list_root := if valid then c.2.1 else 0
    allocations := 0
    ptr := ptr
    size := to32 size_bytes
    alignment := al
    is_valid := valid }

end dynamic_memory

/-! ## Auxiliary definitions used to state the claims -/

namespace dynamic_memory

/-- Extract the forward chain of free-list node addresses: follow `next`
    (offset 16) until null, within the given fuel. -/
def chain (m : Mem) : Nat → Nat → Option (List Nat)
  | 0, c => if c = 0 then some [] else none
  | fuel + 1, c =>
      if c = 0 then some []
      else (chain m fuel (mread m (addW c 16))).map (fun l => c :: l)

/-- The specification of the best-fit search, phrased from the spec text:
    among the free-list blocks whose effective payload is at least the
    aligned request, the first one (in list order) of minimal total size. -/
def spec_best_fit (m : Mem) (al n' : Nat) (l : List Nat) : Option Nat :=
  (l.filter (fun b => decide (n' ≤ effective_payload_size_of_block m al b))).argmin
    (fun b => word_size (mread m b))

/-- One step of the best-fit scan, as a fold function over node addresses. -/
def best_step (m : Mem) (al n' best c : Nat) : Nat :=
  if n' ≤ effective_payload_size_of_block m al c ∧
      (best = 0 ∨ word_size (mread m c) < word_size (mread m best)) then c
  else best

/-- View a node address with the null sentinel 0 as an optional address. -/
def optOf (b : Nat) : Option Nat := if b = 0 then none else some b

/-- Well-formedness of one free-list node of a dynamic engine with alignment
    `2^k`, as found in any properly maintained engine: the node address is
    nonzero, aligned and bounded; its header word is an aligned, in-type-range
    free size word of at least the minimal block size; its `prev` link is
    null or a node ending at least a link-record before it, and its `next`
    link is null or a bounded node at or beyond the block end. -/
def dyn_node_wf (m : Mem) (k b : Nat) : Prop :=
  0 < b ∧ 2 ^ k ∣ b ∧ b + 2 ^ 33 < W64 ∧
  mread m b &&& 1 = 0 ∧
  dynamic_memory.minimal_size_of_any_block (2 ^ k) ≤ mread m b ∧
  mread m b < U32 ∧
  2 ^ k ∣ mread m b ∧
  (mread m (addW b 8) = 0 ∨
    (0 < mread m (addW b 8) ∧ mread m (addW b 8) + 24 ≤ b)) ∧
  (mread m (addW b 16) = 0 ∨
    (b + mread m b ≤ mread m (addW b 16) ∧ mread m (addW b 16) + 24 < W64))

/-- The header address dynamic_memory::free computes for a payload pointer:
    `align_up(p - align_up(sizeof(base_header)))`. -/
def free_header_addr (s : dynamic_memory) (p : Nat) : Nat :=
  align_up (subW p (align_up 8 s.alignment)) s.alignment

/-- The first reject condition of dynamic_memory::free: the pointer is not
    aligned to the engine alignment. -/
def free_reject_misaligned (s : dynamic_memory) (p : Nat) : Prop :=
  ¬ align_down p s.alignment = p

/-- The second reject condition of dynamic_memory::free: the footer word of
    the block addressed by the header disagrees with the header word. -/
def free_reject_sanity (s : dynamic_memory) (p : Nat) : Prop :=
  ¬ mread s.mem
      (subW (addW (free_header_addr s p)
        (word_size (mread s.mem (free_header_addr s p)))) (align_up 8 s.alignment)) =
    mread s.mem (free_header_addr s p)

/-- The third reject condition of dynamic_memory::free: the block is already
    marked free (status bit 0). -/
def free_reject_already_free (s : dynamic_memory) (p : Nat) : Prop :=
  mread s.mem (free_header_addr s p) &&& 1 = 0

end dynamic_memory

/-! ## Arithmetic facts about the word model -/

theorem W64_pos : 0 < W64 := Nat.two_pow_pos 64

theorem addW_small {a b : Nat} (h : a + b < W64) : addW a b = a + b := by
  unfold addW
  exact Nat.mod_eq_of_lt h

theorem subW_small {a b : Nat} (hb : b ≤ a) (ha : a < W64) : subW a b = a - b := by
  unfold subW W64 at *
  omega

theorem to32_small {a : Nat} (h : a < U32) : to32 a = a := Nat.mod_eq_of_lt h

theorem mread_mwrite (m : Mem) (a v x : Nat) :
    mread (mwrite m a v) x = if a = x then v else mread m x := rfl

/-- Clearing the low k bits of a 64-bit word via the mask `2^64 - 2^k`. -/
theorem land_high_mask {y k : Nat} (hk : k ≤ 64) (hy : y < W64) :
    y &&& (W64 - 2 ^ k) = 2 ^ k * (y / 2 ^ k) := by
  have hmask : W64 - 2 ^ k = 2 ^ k * (2 ^ (64 - k) - 1) := by
    have h1 : 2 ^ k * 2 ^ (64 - k) = W64 := by
      rw [← pow_add]
      unfold W64
      congr 1
      omega
    rw [Nat.mul_sub_one, h1]
  apply Nat.eq_of_testBit_eq
  intro i
  rw [Nat.testBit_and, hmask, Nat.testBit_mul_pow_two, Nat.testBit_mul_pow_two,
    Nat.testBit_two_pow_sub_one]
  rcases Nat.lt_or_ge i k with hik | hik
  · simp [Nat.not_le_of_lt hik]
  · rcases Nat.lt_or_ge i 64 with hi64 | hi64
    · have hdiv : y / 2 ^ k = y >>> k := (Nat.shiftRight_eq_div_pow y k).symm
      rw [hdiv, Nat.testBit_shiftRight]
      have hik2 : k + (i - k) = i := by omega
      rw [hik2]
      simp [hik]
      omega
    · have hbit : y.testBit i = false := by
        apply Nat.testBit_lt_two_pow
        calc y < W64 := hy
          _ ≤ 2 ^ i := Nat.pow_le_pow_right (by norm_num) hi64
      have hbit2 : (y / 2 ^ k).testBit (i - k) = false := by
        rw [← Nat.shiftRight_eq_div_pow, Nat.testBit_shiftRight]
        have hik2 : k + (i - k) = i := by omega
        rw [hik2]
        exact hbit
      simp [hbit, hbit2]

/-- `align_up` on a power-of-two alignment rounds up to the next multiple. -/
theorem align_up_pow2 {x k : Nat} (hk : k ≤ 63) (hx : x + 2 ^ k ≤ W64) :
    align_up x (2 ^ k) = 2 ^ k * ((x + 2 ^ k - 1) / 2 ^ k) := by
  have hp : 0 < 2 ^ k := Nat.two_pow_pos k
  have hlt : (2 : Nat) ^ k < W64 := by
    unfold W64
    exact Nat.pow_lt_pow_right (by norm_num) (by omega)
  have h1 : subW (2 ^ k) 1 = 2 ^ k - 1 := subW_small hp hlt
  have h2 : addW x (2 ^ k - 1) = x + (2 ^ k - 1) := addW_small (by omega)
  have h3 : W64 - 1 - (2 ^ k - 1) = W64 - 2 ^ k := by
    have := W64_pos
    omega
  show addW x (subW (2 ^ k) 1) &&& (W64 - 1 - subW (2 ^ k) 1) = _
  rw [h1, h2, h3]
  have h4 : x + (2 ^ k - 1) = x + 2 ^ k - 1 := by omega
  rw [h4]
  exact land_high_mask (by omega) (by omega)

/-- `align_down` on a power-of-two alignment rounds down to a multiple. -/
theorem align_down_pow2 {x k : Nat} (hk : k ≤ 63) (hx : x < W64) :
    align_down x (2 ^ k) = 2 ^ k * (x / 2 ^ k) := by
  have hp : 0 < 2 ^ k := Nat.two_pow_pos k
  have hlt : (2 : Nat) ^ k < W64 := by
    unfold W64
    exact Nat.pow_lt_pow_right (by norm_num) (by omega)
  have h1 : subW (2 ^ k) 1 = 2 ^ k - 1 := subW_small hp hlt
  have h3 : W64 - 1 - (2 ^ k - 1) = W64 - 2 ^ k := by
    have := W64_pos
    omega
  show x &&& (W64 - 1 - subW (2 ^ k) 1) = _
  rw [h1, h3]
  exact land_high_mask (by omega) hx

theorem le_align_up {x k : Nat} (hk : k ≤ 63) (hx : x + 2 ^ k ≤ W64) :
    x ≤ align_up x (2 ^ k) := by
  rw [align_up_pow2 hk hx]
  have hp : 0 < 2 ^ k := Nat.two_pow_pos k
  have h := Nat.div_add_mod (x + 2 ^ k - 1) (2 ^ k)
  have h2 : (x + 2 ^ k - 1) % 2 ^ k < 2 ^ k := Nat.mod_lt _ hp
  omega

theorem align_up_le {x k : Nat} (hk : k ≤ 63) (hx : x + 2 ^ k ≤ W64) :
    align_up x (2 ^ k) ≤ x + 2 ^ k - 1 := by
  rw [align_up_pow2 hk hx]
  have h := Nat.div_mul_le_self (x + 2 ^ k - 1) (2 ^ k)
  calc 2 ^ k * ((x + 2 ^ k - 1) / 2 ^ k) = (x + 2 ^ k - 1) / 2 ^ k * 2 ^ k := by ring
    _ ≤ x + 2 ^ k - 1 := h

theorem align_up_dvd {x k : Nat} (hk : k ≤ 63) (hx : x + 2 ^ k ≤ W64) :
    2 ^ k ∣ align_up x (2 ^ k) := by
  rw [align_up_pow2 hk hx]
  exact Dvd.intro _ rfl

theorem align_up_eq_self {x k : Nat} (hk : k ≤ 63) (hx : x + 2 ^ k ≤ W64)
    (hd : 2 ^ k ∣ x) : align_up x (2 ^ k) = x := by
  rw [align_up_pow2 hk hx]
  obtain ⟨q, hq⟩ := hd
  subst hq
  have hp : 0 < 2 ^ k := Nat.two_pow_pos k
  have h1 : 2 ^ k * q + 2 ^ k - 1 = 2 ^ k * q + (2 ^ k - 1) := by omega
  rw [h1, Nat.mul_add_div hp, Nat.div_eq_of_lt (by omega)]
  norm_num

theorem align_down_le {x k : Nat} (hk : k ≤ 63) (hx : x < W64) :
    align_down x (2 ^ k) ≤ x := by
  rw [align_down_pow2 hk hx]
  calc 2 ^ k * (x / 2 ^ k) = x / 2 ^ k * 2 ^ k := by ring
    _ ≤ x := Nat.div_mul_le_self x (2 ^ k)

theorem align_down_dvd {x k : Nat} (hk : k ≤ 63) (hx : x < W64) :
    2 ^ k ∣ align_down x (2 ^ k) := by
  rw [align_down_pow2 hk hx]
  exact Dvd.intro _ rfl

theorem align_down_eq_self {x k : Nat} (hk : k ≤ 63) (hx : x < W64)
    (hd : 2 ^ k ∣ x) : align_down x (2 ^ k) = x := by
  rw [align_down_pow2 hk hx]
  obtain ⟨q, hq⟩ := hd
  subst hq
  rw [Nat.mul_div_cancel_left _ (Nat.two_pow_pos k)]

theorem align_up_le_of_le {x y k : Nat} (hk : k ≤ 63) (hx : x + 2 ^ k ≤ W64)
    (hxy : x ≤ y) (hd : 2 ^ k ∣ y) : align_up x (2 ^ k) ≤ y := by
  rw [align_up_pow2 hk hx]
  obtain ⟨q, hq⟩ := hd
  subst hq
  have hp : 0 < 2 ^ k := Nat.two_pow_pos k
  have h1 : x + 2 ^ k - 1 ≤ 2 ^ k * q + (2 ^ k - 1) := by omega
  have h2 : (x + 2 ^ k - 1) / 2 ^ k ≤ (2 ^ k * q + (2 ^ k - 1)) / 2 ^ k :=
    Nat.div_le_div_right h1
  rw [Nat.mul_add_div hp, Nat.div_eq_of_lt (show 2 ^ k - 1 < 2 ^ k by omega)] at h2
  have h3 : (x + 2 ^ k - 1) / 2 ^ k ≤ q := by omega
  exact Nat.mul_le_mul_left _ h3

theorem le_align_down {x y k : Nat} (hk : k ≤ 63) (hx : x < W64)
    (hxy : y ≤ x) (hd : 2 ^ k ∣ y) : y ≤ align_down x (2 ^ k) := by
  rw [align_down_pow2 hk hx]
  obtain ⟨q, hq⟩ := hd
  subst hq
  have hp : 0 < 2 ^ k := Nat.two_pow_pos k
  have h2 : (2 ^ k * q) / 2 ^ k ≤ x / 2 ^ k := Nat.div_le_div_right hxy
  rw [Nat.mul_div_cancel_left _ hp] at h2
  exact Nat.mul_le_mul_left _ h2

theorem align_up_lt_W64 (x al : Nat) : align_up x al < W64 := by
  have h : align_up x al ≤ W64 - 1 - subW al 1 := Nat.and_le_right
  have : 0 < W64 := W64_pos
  omega

theorem align_down_lt_W64 (x al : Nat) : align_down x al < W64 := by
  have h : align_down x al ≤ W64 - 1 - subW al 1 := Nat.and_le_right
  have : 0 < W64 := W64_pos
  omega

theorem addW_ne_self {a b : Nat} (hb : 0 < b) (hb2 : b < W64) :
    addW a b ≠ a := by
  unfold addW W64 at *
  omega

theorem mread_mwrite_same (m : Mem) (a v : Nat) : mread (mwrite m a v) a = v := by
  simp [mread_mwrite]

theorem mread_mwrite_ne {a x : Nat} (m : Mem) (v : Nat) (h : a ≠ x) :
    mread (mwrite m a v) x = mread m x := by
  simp [mread_mwrite, h]

/-! ## The claims -/

/-- Claim C5, counterexample: the stack engine constructed with alignment 24
    (not a power of two, but divisible by the pointer size) reports
    `is_valid() = true`, contradicting the claim that every engine built with
    a non-power-of-two alignment is marked invalid. -/
theorem claim_c5_counterexample :
    (stack_memory.create [] 8 5000 24).is_valid = true ∧ is_pow_2 24 = false := by
  constructor
  · decide
  · decide

/-- Claim C8, counterexample: the linear engine passes the requested alignment
    straight through (no `max` with the pointer size), so alignment 4 yields a
    valid engine whose alignment field is below `sizeof(uptr) = 8`. -/
theorem claim_c8_counterexample :
    (linear_memory.create 64 100 4).is_valid = true ∧
    (linear_memory.create 64 100 4).alignment < 8 := by
  constructor
  · decide
  · decide

/-- Claim C6, counterexample: on a linear engine whose construction failed
    (alignment 3), `malloc(8)` returns null yet advances the cursor, so a
    failing malloc is not atomic on every engine. -/
theorem claim_c6_counterexample :
    ((linear_memory.create 64 100 3).malloc 8).1 = 0 ∧
    ¬ ((linear_memory.create 64 100 3).malloc 8).2 = linear_memory.create 64 100 3 := by
  constructor
  · decide
  · decide

/-- Claim C4, counterexample: the pool engine ignores the requested size, so
    on a pool of two 32-byte slots `malloc(100)` succeeds and the promised 100
    bytes would run past the aligned end of the whole region. -/
theorem claim_c4_counterexample :
    ¬ ((pool_memory.create [] 8 64 32 8 false).malloc 100).1 = 0 ∧
    (pool_memory.create [] 8 64 32 8 false).end_aligned_address <
      ((pool_memory.create [] 8 64 32 8 false).malloc 100).1 + 100 := by
  constructor
  · decide
  · decide

/-- Claim C8 (amended): after successful construction the pool and dynamic
    engines have a power-of-two alignment of at least the pointer width, for
    any requested alignment (they take `max(requested, sizeof(uptr))` and
    validity includes the power-of-two check); the linear engine keeps the
    requested alignment unchanged and only checks that it is a power of two,
    so its alignment can be below the pointer width. -/
theorem claim_c8_amended :
    (∀ mem ptr size_bytes block_size req g,
      ((pool_memory.create mem ptr size_bytes block_size req g).is_valid = true →
        is_pow_2 (pool_memory.create mem ptr size_bytes block_size req g).alignment = true) ∧
      8 ≤ (pool_memory.create mem ptr size_bytes block_size req g).alignment) ∧
    (∀ mem ptr size_bytes req,
      ((dynamic_memory.create mem ptr size_bytes req).is_valid = true →
        is_pow_2 (dynamic_memory.create mem ptr size_bytes req).alignment = true) ∧
      8 ≤ (dynamic_memory.create mem ptr size_bytes req).alignment) ∧
    (∀ ptr size_bytes req,
      (linear_memory.create ptr size_bytes req).is_valid = true →
        is_pow_2 (linear_memory.create ptr size_bytes req).alignment = true ∧
        (linear_memory.create ptr size_bytes req).alignment = req) := by
  refine ⟨?_, ?_, ?_⟩
  · intro mem ptr size_bytes block_size req g
    have halign : (pool_memory.create mem ptr size_bytes block_size req g).alignment =
        umax req 8 := by
      simp only [pool_memory.create, pool_memory.reset]
      split <;> rfl
    have hvalid_eq : (pool_memory.create mem ptr size_bytes block_size req g).is_valid =
        (decide (pool_memory.correct_block_size (umax req 8) block_size ≤ size_bytes) &&
          is_pow_2 (umax req 8)) := by
      simp only [pool_memory.create, pool_memory.reset]
      split <;> rfl
    constructor
    · intro hvalid
      rw [halign]
      rw [hvalid_eq] at hvalid
      exact (Bool.and_eq_true _ _ |>.mp hvalid).2
    · rw [halign]
      simp only [umax]
      split <;> omega
  · intro mem ptr size_bytes req
    have halign : (dynamic_memory.create mem ptr size_bytes req).alignment =
        umax req 8 := by
      simp only [dynamic_memory.create]
    constructor
    · intro hvalid
      rw [halign]
      simp only [dynamic_memory.create] at hvalid
      exact (Bool.and_eq_true _ _ |>.mp hvalid).2
    · rw [halign]
      simp only [umax]
      split <;> omega
  · intro ptr size_bytes req hvalid
    simp only [linear_memory.create] at hvalid ⊢
    exact ⟨hvalid, trivial⟩

/-- Witness for C8: the amended statement applied to concrete engines. -/
theorem claim_c8_witness :
    is_pow_2 (pool_memory.create [] 8 64 32 16 false).alignment = true ∧
    8 ≤ (dynamic_memory.create [] 8 5000 8).alignment ∧
    is_pow_2 (linear_memory.create 64 100 4).alignment = true :=
  ⟨(claim_c8_amended.1 [] 8 64 32 16 false).1 (by decide),
   (claim_c8_amended.2.1 [] 8 5000 8).2,
   ((claim_c8_amended.2.2 64 100 4) (by decide)).1⟩

theorem addW_subW_cancel (a b : Nat) : addW a (subW b a) = b % W64 := by
  unfold addW subW W64
  omega

theorem subW_addW_cancel (a b : Nat) : subW (addW a b) b = a % W64 := by
  unfold addW subW W64
  omega

theorem addW_lt_W64 (a b : Nat) : addW a b < W64 := Nat.mod_lt _ W64_pos

theorem subW_lt_W64 (a b : Nat) : subW a b < W64 := Nat.mod_lt _ W64_pos

theorem subW_subW_cancel (a b : Nat) : subW b (subW b a) = a % W64 := by
  unfold subW W64
  omega

/-- Claim C7: stack free succeeds exactly when the stack is non-empty and the
    pointer equals the top block start recomputed from the topmost footer,
    `align_up(current_end - footer.distance)`; on success the cursor moves
    back by the footer distance, on failure the state is unchanged.  In
    addition, directly after a successful malloc the recomputed top block
    start is exactly the address malloc returned, so the only pointer free
    accepts is the most recent un-freed malloc return. -/
theorem claim_c7 :
    (∀ s p,
      ((stack_memory.free s p).1 = true ↔
        (¬ s.current_block_end = stack_memory.start_aligned_address s ∧
          p = align_up (subW s.current_block_end
              (mread s.mem (subW s.current_block_end 8))) s.alignment)) ∧
      ((stack_memory.free s p).1 = true →
        (stack_memory.free s p).2 =
          { s with
            current_block_end :=
              subW s.current_block_end
                (mread s.mem (subW s.current_block_end 8)) }) ∧
      ((stack_memory.free s p).1 = false → (stack_memory.free s p).2 = s)) ∧
    (∀ s n a s2, s.current_block_end < W64 → stack_memory.malloc s n = (a, s2) →
      ¬ a = 0 →
      align_up (subW s2.current_block_end
          (mread s2.mem (subW s2.current_block_end 8))) s2.alignment = a) := by
  constructor
  · intro s p
    simp only [stack_memory.free]
    by_cases h1 : s.current_block_end = stack_memory.start_aligned_address s
    · rw [if_pos h1]
      simp [h1]
    · rw [if_neg h1]
      by_cases h2 : p = align_up (subW s.current_block_end
          (mread s.mem (subW s.current_block_end 8))) s.alignment
      · rw [if_neg (by simpa using h2)]
        simp [h1, h2]
      · rw [if_pos (by simpa using h2)]
        simp [h1, h2]
  · intro s n a s2 hbound hmalloc ha
    simp only [stack_memory.malloc] at hmalloc
    split at hmalloc
    · exact absurd (congrArg Prod.fst hmalloc).symm ha
    · split at hmalloc
      · exact absurd (congrArg Prod.fst hmalloc).symm ha
      · rw [Prod.mk.injEq] at hmalloc
        obtain ⟨ha2, hs2⟩ := hmalloc
        subst ha2
        subst hs2
        have h_cbe : addW s.current_block_end
            (subW (addW (addW (align_up s.current_block_end s.alignment)
              (align_up (align_up n s.alignment) stack_memory.alignment_of_footer)) 8)
              s.current_block_end) =
            addW (addW (align_up s.current_block_end s.alignment)
              (align_up (align_up n s.alignment) stack_memory.alignment_of_footer)) 8 := by
          rw [addW_subW_cancel]
          exact Nat.mod_eq_of_lt (addW_lt_W64 _ _)
        rw [h_cbe, subW_addW_cancel, Nat.mod_eq_of_lt (addW_lt_W64 _ _),
          mread_mwrite_same, subW_subW_cancel, Nat.mod_eq_of_lt hbound]

/-- Witness for C7: on a 5000-byte stack region, freeing the address returned
    by `malloc(512)` succeeds, and the recomputed top block start equals that
    address. -/
theorem claim_c7_witness :
    (stack_memory.free ((stack_memory.create [] 8 5000 8).malloc 512).2 8).1 = true ∧
    align_up (subW ((stack_memory.create [] 8 5000 8).malloc 512).2.current_block_end
        (mread ((stack_memory.create [] 8 5000 8).malloc 512).2.mem
          (subW ((stack_memory.create [] 8 5000 8).malloc 512).2.current_block_end 8)))
      ((stack_memory.create [] 8 5000 8).malloc 512).2.alignment = 8 := by
  constructor
  · exact (claim_c7.1 _ 8).1.mpr ⟨by decide, by decide⟩
  · exact claim_c7.2 (stack_memory.create [] 8 5000 8) 512 8 _ (by decide)
      (by decide) (by decide)

/-- Claim C10: with the double-free guard off, pool free accepts every
    in-range, slot-aligned pointer — already free or never allocated alike —
    pushes it and increments the free count; repeatedly freeing one slot
    drives `free_blocks_count` and `available_size()` above the pool's real
    capacity (concretely: a 64-byte pool of two 32-byte slots reaches a free
    count of 4 and an available size of 128). -/
theorem claim_c10 :
    (∀ fuel s p, s.guard_against_double_free = false →
      align_up s.ptr s.alignment ≤ p →
      p < align_down (addW s.ptr s.size) s.alignment →
      (subW p (align_up s.ptr s.alignment)) % s.block_size = 0 →
      pool_memory.free fuel s p =
        some (true,
          { s with
            mem := mwrite s.mem p s.free_list_root
            free_list_root := p
            free_blocks_count := addW s.free_blocks_count 1 })) ∧
    ((pool_memory.free 5 (pool_memory.create [] 8 64 32 8 false) 8).getD
        (false, pool_memory.create [] 8 64 32 8 false) |>.1) = true ∧
    ((pool_memory.free 5
        ((pool_memory.free 5 (pool_memory.create [] 8 64 32 8 false) 8).getD
          (false, pool_memory.create [] 8 64 32 8 false)).2 8).getD
        (false, pool_memory.create [] 8 64 32 8 false) |>.2.free_blocks_count) = 4 ∧
    (pool_memory.create [] 8 64 32 8 false).blocks_count = 2 ∧
    (pool_memory.create [] 8 64 32 8 false).size <
      ((pool_memory.free 5
        ((pool_memory.free 5 (pool_memory.create [] 8 64 32 8 false) 8).getD
          (false, pool_memory.create [] 8 64 32 8 false)).2 8).getD
        (false, pool_memory.create [] 8 64 32 8 false) |>.2.available_size) := by
  refine ⟨?_, by decide, by decide, by decide, by decide⟩
  intro fuel s p hguard h1 h2 h3
  simp only [pool_memory.free]
  rw [if_neg (not_not_intro ⟨h1, h2⟩), if_neg (not_not_intro h3), hguard]
  simp

/-- Witness for C10: the unguarded-free clause applied to a double free of
    slot 8 on the two-slot pool. -/
theorem claim_c10_witness :
    pool_memory.free 5
      ((pool_memory.free 5 (pool_memory.create [] 8 64 32 8 false) 8).getD
        (false, pool_memory.create [] 8 64 32 8 false)).2 8 =
    some (true,
      { ((pool_memory.free 5 (pool_memory.create [] 8 64 32 8 false) 8).getD
          (false, pool_memory.create [] 8 64 32 8 false)).2 with
        mem := mwrite ((pool_memory.free 5 (pool_memory.create [] 8 64 32 8 false) 8).getD
          (false, pool_memory.create [] 8 64 32 8 false)).2.mem 8
          ((pool_memory.free 5 (pool_memory.create [] 8 64 32 8 false) 8).getD
            (false, pool_memory.create [] 8 64 32 8 false)).2.free_list_root
        free_list_root := 8
        free_blocks_count := addW ((pool_memory.free 5
          (pool_memory.create [] 8 64 32 8 false) 8).getD
          (false, pool_memory.create [] 8 64 32 8 false)).2.free_blocks_count 1 }) :=
  claim_c10.1 5 _ 8 (by decide) (by decide) (by decide) (by decide)

/-- Claim C3: dynamic free returns false exactly when the pointer is
    misaligned, the header and footer words disagree, or the block is already
    marked free; every false return leaves the state unchanged.  Concretely
    (scenario S6): after `a = malloc(200); free(a)`, a second `free(a)`
    returns false and leaves the engine — free-list root, links and block
    words — exactly as it was. -/
theorem claim_c3 :
    (∀ fuel s p b s2, dynamic_memory.free fuel s p = some (b, s2) →
      ((b = false ↔ (dynamic_memory.free_reject_misaligned s p ∨
          dynamic_memory.free_reject_sanity s p ∨
          dynamic_memory.free_reject_already_free s p)) ∧
        (b = false → s2 = s))) ∧
    ((dynamic_memory.free 100
        ((dynamic_memory.free 100
          ((dynamic_memory.malloc 100 (dynamic_memory.create [] 8 5000 8) 200).getD
            (0, dynamic_memory.create [] 8 5000 8)).2
          ((dynamic_memory.malloc 100 (dynamic_memory.create [] 8 5000 8) 200).getD
            (0, dynamic_memory.create [] 8 5000 8)).1).getD
          (false, dynamic_memory.create [] 8 5000 8)).2
        ((dynamic_memory.malloc 100 (dynamic_memory.create [] 8 5000 8) 200).getD
          (0, dynamic_memory.create [] 8 5000 8)).1) =
      some (false,
        ((dynamic_memory.free 100
          ((dynamic_memory.malloc 100 (dynamic_memory.create [] 8 5000 8) 200).getD
            (0, dynamic_memory.create [] 8 5000 8)).2
          ((dynamic_memory.malloc 100 (dynamic_memory.create [] 8 5000 8) 200).getD
            (0, dynamic_memory.create [] 8 5000 8)).1).getD
          (false, dynamic_memory.create [] 8 5000 8)).2) ∧
      ((dynamic_memory.free 100
        ((dynamic_memory.malloc 100 (dynamic_memory.create [] 8 5000 8) 200).getD
          (0, dynamic_memory.create [] 8 5000 8)).2
        ((dynamic_memory.malloc 100 (dynamic_memory.create [] 8 5000 8) 200).getD
          (0, dynamic_memory.create [] 8 5000 8)).1).getD
        (false, dynamic_memory.create [] 8 5000 8)).1 = true) := by
  constructor
  · intro fuel s p b s2 hfree
    simp only [dynamic_memory.free] at hfree
    by_cases c1 : align_down p s.alignment = p
    · rw [if_neg (not_not_intro c1)] at hfree
      by_cases c2 : mread s.mem
          (subW (addW (align_up (subW p (align_up 8 s.alignment)) s.alignment)
            (dynamic_memory.word_size (mread s.mem
              (align_up (subW p (align_up 8 s.alignment)) s.alignment))))
            (align_up 8 s.alignment)) =
          mread s.mem (align_up (subW p (align_up 8 s.alignment)) s.alignment)
      · rw [if_neg (not_not_intro c2)] at hfree
        by_cases c3 : mread s.mem
            (align_up (subW p (align_up 8 s.alignment)) s.alignment) &&& 1 = 0
        · rw [if_pos c3] at hfree
          rw [Option.some.injEq, Prod.mk.injEq] at hfree
          obtain ⟨hb, hs⟩ := hfree
          subst hb
          subst hs
          exact ⟨iff_of_true rfl (Or.inr (Or.inr c3)), fun _ => rfl⟩
        · rw [if_neg c3] at hfree
          have hb : b = true := by
            obtain ⟨s3, -, h2⟩ := Option.map_eq_some'.mp hfree
            rw [Prod.mk.injEq] at h2
            exact h2.1.symm
          subst hb
          refine ⟨iff_of_false (by simp) ?_, fun h => absurd h (by simp)⟩
          simp only [dynamic_memory.free_reject_misaligned,
            dynamic_memory.free_reject_sanity,
            dynamic_memory.free_reject_already_free, dynamic_memory.free_header_addr]
          push_neg
          exact ⟨c1, c2, c3⟩
      · rw [if_pos c2] at hfree
        rw [Option.some.injEq, Prod.mk.injEq] at hfree
        obtain ⟨hb, hs⟩ := hfree
        subst hb
        subst hs
        refine ⟨iff_of_true rfl (Or.inr (Or.inl ?_)), fun _ => rfl⟩
        simpa [dynamic_memory.free_reject_sanity, dynamic_memory.free_header_addr]
          using c2
    · rw [if_pos c1] at hfree
      rw [Option.some.injEq, Prod.mk.injEq] at hfree
      obtain ⟨hb, hs⟩ := hfree
      subst hb
      subst hs
      exact ⟨iff_of_true rfl (Or.inl c1), fun _ => rfl⟩
  · constructor
    · decide
    · decide

/-- Witness for C3: a misaligned pointer (9) on a fresh 5000-byte dynamic
    engine is rejected and the engine is untouched, via the reject-condition
    characterization. -/
theorem claim_c3_witness :
    ∃ s2, dynamic_memory.free 100 (dynamic_memory.create [] 8 5000 8) 9 =
        some (false, s2) ∧ s2 = dynamic_memory.create [] 8 5000 8 := by
  refine ⟨dynamic_memory.create [] 8 5000 8, by decide, ?_⟩
  exact (claim_c3.1 100 (dynamic_memory.create [] 8 5000 8) 9 false
    (dynamic_memory.create [] 8 5000 8) (by decide)).2 rfl

/-! ## Helper lemmas about the dynamic engine operations -/

theorem word_size_of_even {w : Nat} (hw : w < W64) (he : w % 2 = 0) :
    dynamic_memory.word_size w = w := by
  have h2 : W64 - 2 = W64 - 2 ^ 1 := by norm_num
  show w &&& (W64 - 2) = w
  rw [h2, land_high_mask (by norm_num) hw]
  omega

theorem word_size_def (w : Nat) : dynamic_memory.word_size w = w &&& (W64 - 2) := rfl

/-- Reading the header back right after `create_free_block` gives the size
    word of the new free block. -/
theorem create_free_block_read_header (mem : Mem) (al a b : Nat) :
    mread (dynamic_memory.create_free_block mem al a b).1
      (dynamic_memory.create_free_block mem al a b).2.1 =
    subW (align_down b al) (align_up a al) := by
  simp only [dynamic_memory.create_free_block]
  rw [mread_mwrite_ne _ _ (addW_ne_self (by norm_num) (by decide)),
    mread_mwrite_ne _ _ (addW_ne_self (by norm_num) (by decide))]
  simp [mread_mwrite]

/-- The best-fit scan from a null root yields the running best immediately. -/
theorem find_best_zero (m : Mem) (al n' best fuel : Nat) :
    dynamic_memory.find_best m al n' 0 best fuel = some best := by
  cases fuel <;> simp [dynamic_memory.find_best]

/-- Claim C5 (amended): for the pool and dynamic engines, construction with
    invalid parameters (alignment not a power of two; pool block larger than
    the region; dynamic region smaller than the minimal block) marks the
    engine invalid and every subsequent malloc fails deterministically,
    returning null and leaving the engine unchanged.  The linear engine marks
    a non-power-of-two alignment invalid, but (unlike the claim) its malloc
    does not consult validity; the stack engine does not even require a power
    of two, only divisibility by the pointer size. -/
theorem claim_c5_amended :
    (∀ mem ptr size_bytes block_size req g k,
      (is_pow_2 (umax req 8) = false ∨
        (umax req 8 = 2 ^ k ∧ k ≤ 63 ∧ block_size + 2 ^ k ≤ W64 ∧
          size_bytes < block_size)) →
      (pool_memory.create mem ptr size_bytes block_size req g).is_valid = false ∧
      ∀ n, (pool_memory.create mem ptr size_bytes block_size req g).malloc n =
        (0, pool_memory.create mem ptr size_bytes block_size req g)) ∧
    (∀ mem ptr size_bytes req k,
      (is_pow_2 (umax req 8) = false ∨
        (umax req 8 = 2 ^ k ∧ k ≤ 63 ∧
          align_up ptr (umax req 8) ≤
            align_down (addW ptr (to32 size_bytes)) (umax req 8) ∧
          subW (align_down (addW ptr (to32 size_bytes)) (umax req 8))
              (align_up ptr (umax req 8)) <
            dynamic_memory.minimal_size_of_any_block (umax req 8) ∧
          2 ∣ subW (align_down (addW ptr (to32 size_bytes)) (umax req 8))
              (align_up ptr (umax req 8)))) →
      (dynamic_memory.create mem ptr size_bytes req).is_valid = false ∧
      ∀ n fuel,
        dynamic_memory.malloc fuel (dynamic_memory.create mem ptr size_bytes req) n =
          some (0, dynamic_memory.create mem ptr size_bytes req)) ∧
    (∀ ptr size_bytes req, is_pow_2 req = false →
      (linear_memory.create ptr size_bytes req).is_valid = false) := by
  refine ⟨?_, ?_, ?_⟩
  · intro mem ptr size_bytes block_size req g k hbad
    have hval : (decide (pool_memory.correct_block_size (umax req 8) block_size ≤
        size_bytes) && is_pow_2 (umax req 8)) = false := by
      rcases hbad with hnp | ⟨hal, hk, hbound, hbs⟩
      · rw [hnp, Bool.and_false]
      · have hge : block_size ≤ pool_memory.correct_block_size (umax req 8) block_size := by
          simp only [pool_memory.correct_block_size]
          have h1 : block_size ≤ align_up block_size (umax req 8) := by
            rw [hal]
            exact le_align_up hk hbound
          split
          · omega
          · exact h1
        have : ¬ (pool_memory.correct_block_size (umax req 8) block_size ≤ size_bytes) := by
          omega
        simp [this]
    have hvalid_eq : (pool_memory.create mem ptr size_bytes block_size req g).is_valid =
        (decide (pool_memory.correct_block_size (umax req 8) block_size ≤ size_bytes) &&
          is_pow_2 (umax req 8)) := by
      simp only [pool_memory.create, pool_memory.reset]
      split <;> rfl
    have hroot : (pool_memory.create mem ptr size_bytes block_size req g).free_list_root =
        0 := by
      simp only [pool_memory.create]
      rw [if_neg (by simp [hval])]
    refine ⟨by rw [hvalid_eq, hval], ?_⟩
    intro n
    simp [pool_memory.malloc, hroot]
  · intro mem ptr size_bytes req k hbad
    have hval : (decide (dynamic_memory.minimal_size_of_any_block (umax req 8) ≤
        dynamic_memory.word_size
          (mread (dynamic_memory.create_free_block mem (umax req 8) ptr
              (addW ptr (to32 size_bytes))).1
            (dynamic_memory.create_free_block mem (umax req 8) ptr
              (addW ptr (to32 size_bytes))).2.1)) &&
        is_pow_2 (umax req 8)) = false := by
      rcases hbad with hnp | ⟨hal, hk, hle, hsmall, heven⟩
      · rw [hnp, Bool.and_false]
      · have hread := create_free_block_read_header mem (umax req 8) ptr
          (addW ptr (to32 size_bytes))
        have hws : dynamic_memory.word_size
            (mread (dynamic_memory.create_free_block mem (umax req 8) ptr
                (addW ptr (to32 size_bytes))).1
              (dynamic_memory.create_free_block mem (umax req 8) ptr
                (addW ptr (to32 size_bytes))).2.1) =
            subW (align_down (addW ptr (to32 size_bytes)) (umax req 8))
              (align_up ptr (umax req 8)) := by
          rw [hread]
          exact word_size_of_even (subW_lt_W64 _ _) (Nat.mod_eq_zero_of_dvd heven)
        rw [hws]
        have : ¬ (dynamic_memory.minimal_size_of_any_block (umax req 8) ≤
            subW (align_down (addW ptr (to32 size_bytes)) (umax req 8))
              (align_up ptr (umax req 8))) := by omega
        simp [this]
    have hvalid_eq : (dynamic_memory.create mem ptr size_bytes req).is_valid =
        (decide (dynamic_memory.minimal_size_of_any_block (umax req 8) ≤
          dynamic_memory.word_size
            (mread (dynamic_memory.create_free_block mem (umax req 8) ptr
                (addW ptr (to32 size_bytes))).1
              (dynamic_memory.create_free_block mem (umax req 8) ptr
                (addW ptr (to32 size_bytes))).2.1)) &&
          is_pow_2 (umax req 8)) := by
      simp only [dynamic_memory.create]
    have hroot : (dynamic_memory.create mem ptr size_bytes req).free_list_root = 0 := by
      simp only [dynamic_memory.create]
      rw [if_neg (by simp [hval])]
    refine ⟨by rw [hvalid_eq, hval], ?_⟩
    intro n fuel
    simp [dynamic_memory.malloc, hroot, find_best_zero]
  · intro ptr size_bytes req hnp
    simp only [linear_memory.create]
    exact hnp

/-- Witness for C5: a pool whose block (100) exceeds the region (64) and a
    dynamic engine over a region too small for one block (16 bytes) are both
    invalid, and their mallocs return null without touching the engine. -/
theorem claim_c5_witness :
    (pool_memory.create [] 8 64 100 8 false).is_valid = false ∧
    (pool_memory.create [] 8 64 100 8 false).malloc 7 =
      (0, pool_memory.create [] 8 64 100 8 false) ∧
    (dynamic_memory.create [] 8 16 8).is_valid = false ∧
    dynamic_memory.malloc 5 (dynamic_memory.create [] 8 16 8) 7 =
      some (0, dynamic_memory.create [] 8 16 8) := by
  have hp := claim_c5_amended.1 [] 8 64 100 8 false 3
    (Or.inr ⟨by decide, by norm_num, by decide, by norm_num⟩)
  have hd := claim_c5_amended.2.1 [] 8 16 8 3
    (Or.inr ⟨by decide, by norm_num, by decide, by decide, by decide⟩)
  exact ⟨hp.1, hp.2 7, hd.1, hd.2 7 5⟩

theorem create_free_block_fst_addr (mem : Mem) (al a b : Nat) :
    (dynamic_memory.create_free_block mem al a b).2.1 = align_up a al := rfl

theorem create_free_block_snd_addr (mem : Mem) (al a b : Nat) :
    (dynamic_memory.create_free_block mem al a b).2.2 = align_down b al := rfl

/-- Whatever the split decision, the returned block keeps the candidate's
    (aligned) address. -/
theorem split_snd {m : Mem} {al block p : Nat} (hb : align_up block al = block) :
    (dynamic_memory.split_free_block_to_two_by_payload_size m al block p).2 = block := by
  simp only [dynamic_memory.split_free_block_to_two_by_payload_size]
  split
  · exact hb
  · rfl

theorem align_up_8_pow2 {k : Nat} (h3 : 3 ≤ k) (hk : k ≤ 63) :
    align_up 8 (2 ^ k) = 2 ^ k := by
  have h8 : (8 : Nat) ≤ 2 ^ k := by
    calc (8 : Nat) = 2 ^ 3 := by norm_num
      _ ≤ 2 ^ k := Nat.pow_le_pow_right (by norm_num) h3
  have hb : 8 + 2 ^ k ≤ W64 := by
    have : (2 : Nat) ^ k ≤ 2 ^ 63 := Nat.pow_le_pow_right (by norm_num) hk
    unfold W64
    omega
  rw [align_up_pow2 hk hb]
  have hq : (8 + 2 ^ k - 1) / 2 ^ k = 1 := by
    apply Nat.div_eq_of_lt_le
    · omega
    · omega
  rw [hq]
  omega

/-- The best-fit scan only ever returns the running best or a chain node. -/
theorem find_best_result {m : Mem} {al n' : Nat} :
    ∀ {fuel c best l r}, dynamic_memory.chain m fuel c = some l →
      dynamic_memory.find_best m al n' c best fuel = some r →
      r = best ∨ r ∈ l := by
  intro fuel
  induction fuel with
  | zero =>
    intro c best l r hch hfb
    by_cases hc : c = 0
    · subst hc
      simp [dynamic_memory.find_best] at hfb
      exact Or.inl hfb.symm
    · simp [dynamic_memory.chain, hc] at hch
  | succ fuel ih =>
    intro c best l r hch hfb
    by_cases hc : c = 0
    · subst hc
      simp [dynamic_memory.find_best] at hfb
      exact Or.inl hfb.symm
    · simp only [dynamic_memory.chain, if_neg hc] at hch
      obtain ⟨l2, hl2, hl⟩ := Option.map_eq_some'.mp hch
      subst hl
      simp only [dynamic_memory.find_best, if_neg hc] at hfb
      rcases ih hl2 hfb with h | h
      · by_cases hcond : n' ≤ dynamic_memory.effective_payload_size_of_block m al c ∧
            (best = 0 ∨ dynamic_memory.word_size (mread m c) <
              dynamic_memory.word_size (mread m best))
        · rw [if_pos hcond] at h
          exact Or.inr (h ▸ List.mem_cons_self c l2)
        · rw [if_neg hcond] at h
          exact Or.inl h
      · exact Or.inr (List.mem_cons_of_mem c h)

/-- A failing dynamic free leaves the engine exactly as it was: all three
    reject paths return before any write, and the committed part always
    reports success. -/
theorem dyn_free_false_unchanged {fuel : Nat} {s : dynamic_memory} {p : Nat}
    {s2 : dynamic_memory} (h : dynamic_memory.free fuel s p = some (false, s2)) :
    s2 = s := by
  simp only [dynamic_memory.free] at h
  by_cases c1 : align_down p s.alignment = p
  · rw [if_neg (not_not_intro c1)] at h
    by_cases c2 : mread s.mem
        (subW (addW (align_up (subW p (align_up 8 s.alignment)) s.alignment)
          (dynamic_memory.word_size (mread s.mem
            (align_up (subW p (align_up 8 s.alignment)) s.alignment))))
          (align_up 8 s.alignment)) =
        mread s.mem (align_up (subW p (align_up 8 s.alignment)) s.alignment)
    · rw [if_neg (not_not_intro c2)] at h
      by_cases c3 : mread s.mem
          (align_up (subW p (align_up 8 s.alignment)) s.alignment) &&& 1 = 0
      · rw [if_pos c3, Option.some.injEq, Prod.mk.injEq] at h
        exact h.2.symm
      · rw [if_neg c3] at h
        obtain ⟨s3, -, h2⟩ := Option.map_eq_some'.mp h
        rw [Prod.mk.injEq] at h2
        exact absurd h2.1 (by simp)
    · rw [if_pos c2, Option.some.injEq, Prod.mk.injEq] at h
      exact h.2.symm
  · rw [if_pos c1, Option.some.injEq, Prod.mk.injEq] at h
    exact h.2.symm

/-- Claim C6 (amended): on engines in a properly constructed state, every
    failing operation is atomic — malloc returning null and free returning
    false leave the whole engine unchanged (the dynamic status flip happens
    only on paths that return true).  For linear and stack this needs the
    cursor to be non-null, which construction guarantees on valid engines but
    which fails on invalid ones (see the counterexample). -/
theorem claim_c6_amended :
    (∀ (s : linear_memory) n, ¬ s.current_ptr = 0 → (s.malloc n).1 = 0 →
      (s.malloc n).2 = s) ∧
    (∀ (s : linear_memory) p, s.free p = (false, s)) ∧
    (∀ (s : stack_memory) n, ¬ align_up s.current_block_end s.alignment = 0 →
      (s.malloc n).1 = 0 → (s.malloc n).2 = s) ∧
    (∀ (s : stack_memory) p, (s.free p).1 = false → (s.free p).2 = s) ∧
    (∀ (s : pool_memory) n, (s.malloc n).1 = 0 → (s.malloc n).2 = s) ∧
    (∀ fuel (s : pool_memory) p s2, pool_memory.free fuel s p = some (false, s2) →
      s2 = s) ∧
    (∀ fuel k (s : dynamic_memory) n s2 l, s.alignment = 2 ^ k → 3 ≤ k → k ≤ 63 →
      dynamic_memory.chain s.mem fuel s.free_list_root = some l →
      (∀ b ∈ l, 0 < b ∧ 2 ^ k ∣ b ∧ b + 2 ^ k < W64) →
      dynamic_memory.malloc fuel s n = some (0, s2) → s2 = s) ∧
    (∀ fuel (s : dynamic_memory) p s2,
      dynamic_memory.free fuel s p = some (false, s2) → s2 = s) := by
  refine ⟨?_, ?_, ?_, ?_, ?_, ?_, ?_, ?_⟩
  · intro s n hcp
    simp only [linear_memory.malloc]
    split
    · intro _
      rfl
    · split
      · intro _
        rfl
      · intro h
        exact absurd h hcp
  · intro s p
    rfl
  · intro s n hst
    simp only [stack_memory.malloc]
    split
    · intro _
      rfl
    · split
      · intro _
        rfl
      · intro h
        exact absurd h hst
  · intro s p
    simp only [stack_memory.free]
    split
    · intro _
      rfl
    · split
      · intro _
        rfl
      · intro h
        simp at h
  · intro s n
    simp only [pool_memory.malloc]
    split
    · intro _
      rfl
    · rename_i hroot
      intro h
      exact absurd h hroot
  · intro fuel s p s2 h
    simp only [pool_memory.free] at h
    repeat' split at h
    all_goals
      first
      | exact Option.noConfusion h
      | (rw [Option.some.injEq, Prod.mk.injEq] at h
         first
         | exact h.2.symm
         | exact absurd h.1 (by simp))
  · intro fuel k s n s2 l hal h3 hk hch hnodes hm
    simp only [dynamic_memory.malloc, dynamic_memory.malloc_commit] at hm
    cases hfb : dynamic_memory.find_best s.mem s.alignment
        (align_up n s.alignment) s.free_list_root 0 fuel with
    | none =>
      rw [hfb] at hm
      exact Option.noConfusion hm
    | some best =>
      rw [hfb] at hm
      dsimp only at hm
      by_cases hb0 : best = 0
      · rw [if_pos hb0, Option.some.injEq, Prod.mk.injEq] at hm
        exact hm.2.symm
      · rw [if_neg hb0, Option.some.injEq, Prod.mk.injEq] at hm
        exfalso
        have hmem : best ∈ l := by
          rcases find_best_result hch hfb with h | h
          · exact absurd h hb0
          · exact h
        obtain ⟨hpos, hdvd, hbound⟩ := hnodes best hmem
        have hba : align_up best s.alignment = best := by
          rw [hal]
          exact align_up_eq_self hk (by omega) hdvd
        have hresolved :
            (dynamic_memory.split_free_block_to_two_by_payload_size s.mem
              s.alignment best (to32 (align_up n s.alignment))).2 = best :=
          split_snd hba
        rw [hresolved] at hm
        have h8 : align_up 8 s.alignment = 2 ^ k := by
          rw [hal]
          exact align_up_8_pow2 h3 hk
        rw [h8] at hm
        have : addW best (2 ^ k) = best + 2 ^ k := addW_small (by omega)
        rw [this] at hm
        omega
  · intro fuel s p s2 h
    exact dyn_free_false_unchanged h

/-- Witness for C6: a zero-size malloc on a valid linear engine, an oversized
    malloc on a valid dynamic engine and an out-of-range pool free all leave
    their engines untouched. -/
theorem claim_c6_witness :
    ((linear_memory.create 64 100 8).malloc 0).2 = linear_memory.create 64 100 8 ∧
    (∃ s2, dynamic_memory.malloc 5 (dynamic_memory.create [] 8 5000 8) 6000 =
      some (0, s2) ∧ s2 = dynamic_memory.create [] 8 5000 8) ∧
    (∃ s2, pool_memory.free 5 (pool_memory.create [] 8 64 32 8 true) 9999 =
      some (false, s2) ∧ s2 = pool_memory.create [] 8 64 32 8 true) := by
  refine ⟨claim_c6_amended.1 (linear_memory.create 64 100 8) 0 (by decide) (by decide),
    ⟨dynamic_memory.create [] 8 5000 8, by decide,
      claim_c6_amended.2.2.2.2.2.2.1 5 3 (dynamic_memory.create [] 8 5000 8) 6000
        (dynamic_memory.create [] 8 5000 8) [8] (by decide) (by norm_num) (by norm_num)
        (by decide) (by decide) (by decide)⟩,
    ⟨pool_memory.create [] 8 64 32 8 true, by decide,
      claim_c6_amended.2.2.2.2.2.1 5 (pool_memory.create [] 8 64 32 8 true) 9999
        (pool_memory.create [] 8 64 32 8 true) (by decide)⟩⟩

theorem and_one_eq_zero_iff (w : Nat) : w &&& 1 = 0 ↔ w % 2 = 0 := by
  rw [Nat.and_one_is_mod]

theorem xor_one_of_even {w : Nat} (he : w % 2 = 0) : w ^^^ 1 = w + 1 := by
  apply Nat.eq_of_testBit_eq
  intro i
  rw [Nat.testBit_xor]
  cases i with
  | zero =>
    rw [Nat.testBit_zero, Nat.testBit_zero, Nat.testBit_zero]
    simp [he, Nat.add_mod, Nat.mod_self]
  | succ j =>
    rw [Nat.testBit_add_one, Nat.testBit_add_one, Nat.testBit_add_one]
    have h1 : (1 : Nat) / 2 = 0 := by norm_num
    have h2 : (w + 1) / 2 = w / 2 := by omega
    rw [h1, h2]
    simp

theorem word_size_two_mul {w : Nat} (hw : w < W64) :
    dynamic_memory.word_size w = 2 * (w / 2) := by
  have h2 : W64 - 2 = W64 - 2 ^ 1 := by norm_num
  show w &&& (W64 - 2) = 2 * (w / 2)
  rw [h2, land_high_mask (by norm_num) hw]
  norm_num

theorem word_size_succ_of_even {w : Nat} (hw : w + 1 < W64) (he : w % 2 = 0) :
    dynamic_memory.word_size (w + 1) = w := by
  rw [word_size_two_mul hw]
  omega

/-- The best-fit scan is the fold of `best_step` over the chain node list. -/
theorem find_best_chain {m : Mem} {al n' : Nat} :
    ∀ {fuel c l} (best : Nat), dynamic_memory.chain m fuel c = some l →
      dynamic_memory.find_best m al n' c best fuel =
        some (l.foldl (dynamic_memory.best_step m al n') best) := by
  intro fuel
  induction fuel with
  | zero =>
    intro c l best hch
    by_cases hc : c = 0
    · subst hc
      simp [dynamic_memory.chain] at hch
      subst hch
      simp [dynamic_memory.find_best]
    · simp [dynamic_memory.chain, hc] at hch
  | succ fuel ih =>
    intro c l best hch
    by_cases hc : c = 0
    · subst hc
      simp [dynamic_memory.chain] at hch
      subst hch
      simp [dynamic_memory.find_best]
    · simp only [dynamic_memory.chain, if_neg hc] at hch
      obtain ⟨l2, hl2, hl⟩ := Option.map_eq_some'.mp hch
      subst hl
      simp only [dynamic_memory.find_best, if_neg hc]
      rw [ih _ hl2]
      rfl

/-- The scan fold agrees with the Mathlib `argAux` fold over the filtered
    candidate list, through the null-sentinel view. -/
theorem fold_step_argAux {m : Mem} {al n' : Nat} :
    ∀ (l : List Nat) (best : Nat), (∀ b ∈ l, b ≠ 0) →
      dynamic_memory.optOf (l.foldl (dynamic_memory.best_step m al n') best) =
        (l.filter (fun b =>
          decide (n' ≤ dynamic_memory.effective_payload_size_of_block m al b))).foldl
          (List.argAux fun b c =>
            dynamic_memory.word_size (mread m b) <
              dynamic_memory.word_size (mread m c))
          (dynamic_memory.optOf best) := by
  intro l
  induction l with
  | nil =>
    intro best _
    rfl
  | cons c t ih =>
    intro best h0
    have hc : c ≠ 0 := h0 c (List.mem_cons_self c t)
    have ht : ∀ b ∈ t, b ≠ 0 := fun b hb => h0 b (List.mem_cons_of_mem c hb)
    by_cases hfit : n' ≤ dynamic_memory.effective_payload_size_of_block m al c
    · have hstep : dynamic_memory.optOf (dynamic_memory.best_step m al n' best c) =
          List.argAux (fun b c =>
            dynamic_memory.word_size (mread m b) <
              dynamic_memory.word_size (mread m c)) (dynamic_memory.optOf best) c := by
        by_cases hb : best = 0
        · subst hb
          simp [dynamic_memory.best_step, dynamic_memory.optOf, hfit, hc, List.argAux]
        · simp only [dynamic_memory.best_step, dynamic_memory.optOf, if_neg hb, List.argAux]
          by_cases hlt : dynamic_memory.word_size (mread m c) <
              dynamic_memory.word_size (mread m best)
          · simp [hfit, hlt, hb, hc]
          · simp [hfit, hlt, hb]
      rw [List.foldl_cons, List.filter_cons, if_pos (by simpa using hfit),
        List.foldl_cons, ih _ ht, hstep]
    · have hstep : dynamic_memory.best_step m al n' best c = best := by
        simp [dynamic_memory.best_step, hfit]
      rw [List.foldl_cons, List.filter_cons, if_neg (by simpa using hfit), hstep,
        ih _ ht]

/-- The best-fit scan computes exactly the specification pick: none found
    gives the null sentinel, otherwise the first smallest fitting node. -/
theorem find_best_spec {m : Mem} {al n' fuel c : Nat} {l : List Nat}
    (hch : dynamic_memory.chain m fuel c = some l) (h0 : ∀ b ∈ l, b ≠ 0) :
    (dynamic_memory.spec_best_fit m al n' l = none →
      dynamic_memory.find_best m al n' c 0 fuel = some 0) ∧
    (∀ b, dynamic_memory.spec_best_fit m al n' l = some b →
      dynamic_memory.find_best m al n' c 0 fuel = some b) := by
  have hfold := @find_best_chain m al n' fuel c l 0 hch
  have hbridge := @fold_step_argAux m al n' l 0 h0
  have hspec : dynamic_memory.spec_best_fit m al n' l =
      dynamic_memory.optOf (l.foldl (dynamic_memory.best_step m al n') 0) := by
    rw [hbridge]
    rfl
  constructor
  · intro hnone
    rw [hspec] at hnone
    simp only [dynamic_memory.optOf] at hnone
    split at hnone
    · rename_i h
      rw [hfold, h]
    · exact Option.noConfusion hnone
  · intro b hsome
    rw [hspec] at hsome
    simp only [dynamic_memory.optOf] at hsome
    split at hsome
    · exact Option.noConfusion hsome
    · rw [hfold]
      exact hsome

/-- Claim C1: on a valid dynamic engine (free-list chain `l` of well-formed
    nodes), `malloc(n)` realizes the specification pick `spec_best_fit` with
    `n' = align_up(n)`: among the free-list blocks whose effective payload is
    at least `n'`, the block actually carved (identified by the returned
    address, header plus aligned base header) is the first one of minimal
    total size; when no block fits, malloc returns null and the engine is
    unchanged. -/
theorem claim_c1 (fuel k n : Nat) (s : dynamic_memory) (l : List Nat)
    (hal : s.alignment = 2 ^ k) (h3 : 3 ≤ k) (hk : k ≤ 63)
    (hch : dynamic_memory.chain s.mem fuel s.free_list_root = some l)
    (hnodes : ∀ b ∈ l, 0 < b ∧ 2 ^ k ∣ b ∧ b + 2 ^ k < W64) :
    (dynamic_memory.spec_best_fit s.mem s.alignment (align_up n s.alignment) l =
        none →
      dynamic_memory.malloc fuel s n = some (0, s)) ∧
    (∀ b, dynamic_memory.spec_best_fit s.mem s.alignment
        (align_up n s.alignment) l = some b →
      ∃ s2, dynamic_memory.malloc fuel s n =
        some (addW b (align_up 8 s.alignment), s2)) := by
  have h0 : ∀ b ∈ l, b ≠ 0 := fun b hb => by
    have := (hnodes b hb).1
    omega
  constructor
  · intro hnone
    have hfb := (find_best_spec hch h0).1 hnone
    simp only [dynamic_memory.malloc, dynamic_memory.malloc_commit]
    rw [hfb]
    dsimp only
    rw [if_pos rfl]
  · intro b hsome
    have hfb := (find_best_spec hch h0).2 b hsome
    have hmem : b ∈ (l.filter fun x =>
        decide (align_up n s.alignment ≤
          dynamic_memory.effective_payload_size_of_block s.mem s.alignment x)).argmin
        (fun x => dynamic_memory.word_size (mread s.mem x)) :=
      Option.mem_def.mpr hsome
    have hbl : b ∈ l := List.mem_of_mem_filter (List.argmin_mem hmem)
    obtain ⟨hpos, hdvd, hbound⟩ := hnodes b hbl
    have hb0 : ¬ b = 0 := by omega
    have hba : align_up b s.alignment = b := by
      rw [hal]
      exact align_up_eq_self hk (by omega) hdvd
    have hresolved :
        (dynamic_memory.split_free_block_to_two_by_payload_size s.mem
          s.alignment b (to32 (align_up n s.alignment))).2 = b :=
      split_snd hba
    cases hres : dynamic_memory.malloc fuel s n with
    | none =>
      exfalso
      simp only [dynamic_memory.malloc, dynamic_memory.malloc_commit] at hres
      rw [hfb] at hres
      dsimp only at hres
      rw [if_neg hb0] at hres
      exact Option.noConfusion hres
    | some ps =>
      have hres2 := hres
      simp only [dynamic_memory.malloc, dynamic_memory.malloc_commit] at hres2
      rw [hfb] at hres2
      dsimp only at hres2
      rw [if_neg hb0, hresolved, Option.some.injEq] at hres2
      refine ⟨ps.2, ?_⟩
      rw [← hres2]

/-- Witness for C1: on the fresh 5000-byte engine the specification pick for
    a 200-byte request is the single free block at 8, and malloc returns its
    payload address 16. -/
theorem claim_c1_witness :
    ∃ s2, dynamic_memory.malloc 100 (dynamic_memory.create [] 8 5000 8) 200 =
      some (16, s2) := by
  obtain ⟨s2, h⟩ := (claim_c1 100 3 200 (dynamic_memory.create [] 8 5000 8) [8]
    (by decide) (by norm_num) (by norm_num) (by decide) (by decide)).2 8 (by decide)
  rw [show addW 8 (align_up 8 (dynamic_memory.create [] 8 5000 8).alignment) = 16
    from by decide] at h
  exact ⟨s2, h⟩

/-- A multiple of `2^k` below `2^64` leaves room for one more `2^k`. -/
theorem dvd_add_pow_le {x k : Nat} (hk : k ≤ 64) (hx : x < W64) (hd : 2 ^ k ∣ x) :
    x + 2 ^ k ≤ W64 := by
  have hdW : (2 : Nat) ^ k ∣ W64 := by
    unfold W64
    exact pow_dvd_pow 2 hk
  have hsub : (2 : Nat) ^ k ∣ (W64 - x) := Nat.dvd_sub' hdW hd
  have hpos : 0 < W64 - x := by omega
  have := Nat.le_of_dvd hpos hsub
  omega

/-- Claim C4 (amended): on the linear and stack engines a successful
    `malloc(n)` hands the caller at least `n` usable bytes inside the region:
    the returned address `p` satisfies `p + n ≤ end_aligned_address()`.  On a
    valid dynamic engine a successful `malloc(n)` carves a free-list block
    whose effective payload is at least `n`.  The pool engine ignores the
    requested size entirely (`malloc(n)` computes the same result as
    `malloc(m)` for every `n`, `m`), so its handed block holds `n` bytes only
    when `n` is at most the pool block size. -/
theorem claim_c4_amended :
    (∀ (k n p : Nat) (s s' : linear_memory),
      s.alignment = 2 ^ k → k ≤ 63 → 2 ^ k ∣ s.current_ptr →
      s.current_ptr ≤ s.end_aligned_address → n + 2 ^ k ≤ W64 →
      s.malloc n = (p, s') → ¬ p = 0 →
      p + n ≤ s.end_aligned_address) ∧
    (∀ (k n p : Nat) (s s' : stack_memory),
      s.alignment = 2 ^ k → 3 ≤ k → k ≤ 63 →
      s.current_block_end ≤ s.end_aligned_address →
      s.current_block_end + n + 2 ^ k + 2 ^ k + 16 < W64 →
      s.malloc n = (p, s') → ¬ p = 0 →
      p + n ≤ s.end_aligned_address) ∧
    (∀ (s : pool_memory) (n m : Nat), s.malloc n = s.malloc m) ∧
    (∀ (fuel k n p : Nat) (s s2 : dynamic_memory) (l : List Nat),
      s.alignment = 2 ^ k → k ≤ 63 → n + 2 ^ k ≤ W64 →
      dynamic_memory.chain s.mem fuel s.free_list_root = some l →
      (∀ b ∈ l, 0 < b ∧ 2 ^ k ∣ b ∧ b + 2 ^ k < W64) →
      dynamic_memory.malloc fuel s n = some (p, s2) → ¬ p = 0 →
      ∃ b ∈ l, p = addW b (align_up 8 s.alignment) ∧
        n ≤ dynamic_memory.effective_payload_size_of_block s.mem s.alignment b) := by
  refine ⟨?_, ?_, ?_, ?_⟩
  · intro k n p s s' hal hk hd hcur hn hm hp
    have hend : s.end_aligned_address < W64 := by
      simp only [linear_memory.end_aligned_address]
      exact align_down_lt_W64 _ _
    have hcurW : s.current_ptr < W64 := lt_of_le_of_lt hcur hend
    have hc2 : s.current_ptr + 2 ^ k ≤ W64 := dvd_add_pow_le (by omega) hcurW hd
    simp only [linear_memory.malloc] at hm
    rw [hal] at hm
    split at hm
    · rw [Prod.mk.injEq] at hm
      exact absurd hm.1.symm hp
    · split at hm
      · rw [Prod.mk.injEq] at hm
        exact absurd hm.1.symm hp
      · rename_i hsz hsp
        have hle : align_up n (2 ^ k) ≤ linear_memory.available_size s := not_not.mp hsp
        rw [Prod.mk.injEq] at hm
        have hpcur : p = s.current_ptr := hm.1.symm
        have havail : linear_memory.available_size s =
            s.end_aligned_address - s.current_ptr := by
          simp only [linear_memory.available_size]
          rw [hal, align_up_eq_self hk hc2 hd]
          exact subW_small hcur hend
        have hn_le : n ≤ align_up n (2 ^ k) := le_align_up hk hn
        rw [havail] at hle
        omega
  · intro k n p s s' hal h3 hk hcur hbound hm hp
    have h2k8 : (8 : Nat) ≤ 2 ^ k := by
      calc (8 : Nat) = 2 ^ 3 := by norm_num
        _ ≤ 2 ^ k := Nat.pow_le_pow_right (by norm_num) h3
    have hend : s.end_aligned_address < W64 := by
      simp only [stack_memory.end_aligned_address]
      exact align_down_lt_W64 _ _
    have hEd : 2 ^ k ∣ s.end_aligned_address := by
      simp only [stack_memory.end_aligned_address]
      rw [hal]
      exact align_down_dvd hk (addW_lt_W64 _ _)
    have hc2 : s.current_block_end + 2 ^ k ≤ W64 := by omega
    have hn2 : n + 2 ^ k ≤ W64 := by omega
    have hnbs1 : s.current_block_end ≤ align_up s.current_block_end (2 ^ k) :=
      le_align_up hk hc2
    have hnbs2 : align_up s.current_block_end (2 ^ k) ≤
        s.current_block_end + 2 ^ k - 1 := align_up_le hk hc2
    have hnbsE : align_up s.current_block_end (2 ^ k) ≤ s.end_aligned_address :=
      align_up_le_of_le hk hc2 hcur hEd
    have hasz1 : n ≤ align_up n (2 ^ k) := le_align_up hk hn2
    have hasz2 : align_up n (2 ^ k) ≤ n + 2 ^ k - 1 := align_up_le hk hn2
    have hA8 : align_up n (2 ^ k) + 2 ^ 3 ≤ W64 := by
      rw [show (2 : Nat) ^ 3 = 8 from by norm_num]
      omega
    have haf1 : align_up n (2 ^ k) ≤ align_up (align_up n (2 ^ k)) 8 := by
      have h := @le_align_up (align_up n (2 ^ k)) 3 (by norm_num) hA8
      rw [show (2 : Nat) ^ 3 = 8 from by norm_num] at h
      exact h
    have haf2 : align_up (align_up n (2 ^ k)) 8 ≤ align_up n (2 ^ k) + 8 - 1 := by
      have h := @align_up_le (align_up n (2 ^ k)) 3 (by norm_num) hA8
      rw [show (2 : Nat) ^ 3 = 8 from by norm_num] at h
      exact h
    simp only [stack_memory.malloc, stack_memory.alignment_of_footer] at hm
    rw [hal] at hm
    split at hm
    · rw [Prod.mk.injEq] at hm
      exact absurd hm.1.symm hp
    · split at hm
      · rw [Prod.mk.injEq] at hm
        exact absurd hm.1.symm hp
      · rename_i hn0 hsp
        have hsp2 := not_not.mp hsp
        have hnowrapF : align_up s.current_block_end (2 ^ k) +
            align_up (align_up n (2 ^ k)) 8 + 8 < W64 := by omega
        have hadd1 : addW (align_up s.current_block_end (2 ^ k))
            (align_up (align_up n (2 ^ k)) 8) =
            align_up s.current_block_end (2 ^ k) +
              align_up (align_up n (2 ^ k)) 8 :=
          addW_small (by omega)
        rw [hadd1] at hsp2
        have hadd2 : addW (align_up s.current_block_end (2 ^ k) +
            align_up (align_up n (2 ^ k)) 8) 8 =
            align_up s.current_block_end (2 ^ k) +
              align_up (align_up n (2 ^ k)) 8 + 8 :=
          addW_small (by omega)
        rw [hadd2] at hsp2
        have hsub : subW (align_up s.current_block_end (2 ^ k) +
            align_up (align_up n (2 ^ k)) 8 + 8) s.current_block_end =
            align_up s.current_block_end (2 ^ k) +
              align_up (align_up n (2 ^ k)) 8 + 8 - s.current_block_end :=
          subW_small (by omega) (by omega)
        rw [hsub] at hsp2
        have havail : stack_memory.available_size s =
            s.end_aligned_address - align_up s.current_block_end (2 ^ k) := by
          simp only [stack_memory.available_size]
          rw [hal]
          exact subW_small hnbsE hend
        rw [havail] at hsp2
        rw [Prod.mk.injEq] at hm
        have hpnbs : p = align_up s.current_block_end (2 ^ k) := hm.1.symm
        omega
  · intro s n m
    rfl
  · intro fuel k n p s s2 l hal hk hn hch hnodes hm hp
    have h0 : ∀ b ∈ l, b ≠ 0 := fun b hb => by
      have := (hnodes b hb).1
      omega
    have hfold := @find_best_chain s.mem s.alignment (align_up n s.alignment) fuel
      s.free_list_root l 0 hch
    have hbridge := @fold_step_argAux s.mem s.alignment (align_up n s.alignment) l 0 h0
    obtain ⟨B, hB⟩ : ∃ B, l.foldl (dynamic_memory.best_step s.mem s.alignment
        (align_up n s.alignment)) 0 = B := ⟨_, rfl⟩
    rw [hB] at hfold hbridge
    simp only [dynamic_memory.malloc, dynamic_memory.malloc_commit] at hm
    rw [hfold] at hm
    dsimp only at hm
    by_cases hb : B = 0
    · rw [if_pos hb] at hm
      rw [Option.some.injEq, Prod.mk.injEq] at hm
      exact absurd hm.1.symm hp
    · rw [if_neg hb] at hm
      have hspec : dynamic_memory.spec_best_fit s.mem s.alignment
          (align_up n s.alignment) l = dynamic_memory.optOf B := by
        rw [hbridge]
        rfl
      have hsome : dynamic_memory.spec_best_fit s.mem s.alignment
          (align_up n s.alignment) l = some B := by
        rw [hspec]
        simp [dynamic_memory.optOf, hb]
      have hmem : B ∈ (l.filter fun x =>
          decide (align_up n s.alignment ≤
            dynamic_memory.effective_payload_size_of_block s.mem s.alignment x)).argmin
          (fun x => dynamic_memory.word_size (mread s.mem x)) :=
        Option.mem_def.mpr hsome
      have hfil := List.argmin_mem hmem
      have hbl : B ∈ l := List.mem_of_mem_filter hfil
      have hfit : align_up n s.alignment ≤
          dynamic_memory.effective_payload_size_of_block s.mem s.alignment B :=
        of_decide_eq_true (List.mem_filter.mp hfil).2
      obtain ⟨hpos, hdvd, hbound2⟩ := hnodes B hbl
      have hba : align_up B s.alignment = B := by
        rw [hal]
        exact align_up_eq_self hk (le_of_lt hbound2) hdvd
      have hresolved :
          (dynamic_memory.split_free_block_to_two_by_payload_size s.mem
            s.alignment B (to32 (align_up n s.alignment))).2 = B :=
        split_snd hba
      rw [hresolved, Option.some.injEq, Prod.mk.injEq] at hm
      refine ⟨B, hbl, hm.1.symm, ?_⟩
      have hn_le : n ≤ align_up n s.alignment := by
        rw [hal]
        exact le_align_up hk hn
      omega

/-- Witness for C4: the amended linear statement applied to the engine on
    `[64, 164)` with alignment 8, where `malloc(8)` returns 64 and the 8
    bytes fit below the aligned end 160. -/
theorem claim_c4_witness :
    ((linear_memory.create 64 100 8).malloc 8).1 + 8 ≤
      (linear_memory.create 64 100 8).end_aligned_address :=
  claim_c4_amended.1 3 8 ((linear_memory.create 64 100 8).malloc 8).1
    (linear_memory.create 64 100 8) ((linear_memory.create 64 100 8).malloc 8).2
    (by decide) (by decide) (by decide) (by decide) (by decide) (by decide) (by decide)

end MicroAlloc
